import Mathlib

/-!
Verification of the mode-state machine and puzzle-advancement scheduler of the
chess PGN trainer.  The definitions below are shallow embeddings of the
JavaScript source:

* `Repetition` embeds the level-gated repetition-mode hooks
  (`_repetitionPuzzleComplete`, `doLevelRestart`, `repLevelEnd`,
  `repPuzzlesDoneInLevel`).
* `SM2` embeds the spaced-repetition (Infinity) mode
  (`srApplySM2`, `srGetCard`, `srOnPuzzleComplete`, `srBuildQueue`, `srAdvance`).
* `Haste` embeds the combo-economy mode handlers
  (`handlePuzzleComplete`, `handleIncorrectMove` with `comboThresholds`).
* `Trainer` embeds the main move loop (`dropPiece`, `makeMove`,
  `checkAndPlayNext`, `startTest`, `nextPuzzle`).

JavaScript numbers are modelled as `Int` (millisecond timestamps, seconds of
time, counters) and as `Rat` where genuinely fractional arithmetic occurs
(the SM-2 ease factor); `Math.round` is modelled by `jsRound` below, which is
the JavaScript rounding rule (half-up via floor).
-/

namespace Repetition

/-- Embedding of the `repState` object of the repetition-mode file:
current level, the `increment` value at which the current level started,
errors recorded in the current level, and the reentrancy guard flag. -/
structure RepState where
  currentLevel : Nat
  levelStartIncrement : Nat
  levelErrors : Nat
  restarting : Bool
deriving Repr, DecidableEq

/-- World state seen by the repetition hooks: the repetition state, the main
app cursor `increment`, the per-puzzle global `error` flag (true when the just
finished puzzle had at least one wrong move), and a flag recording whether any
session-ending routine has run.  No function in the repetition-mode file ever
ends the session, so the embedded transitions carry `sessionEnded` through
unchanged. -/
structure RepWorld where
  rep : RepState
  increment : Nat
  errorFlag : Bool
  sessionEnded : Bool
deriving Repr, DecidableEq

/-- Embedding of `repLevelEnd()`: one past the last puzzle index of the
current level, clamped to the puzzle-set length.  `lsz` is `REP_LEVEL_SIZE`
and `len` is `puzzleset.length`. -/
def repLevelEnd (lsz len : Nat) (s : RepState) : Nat :=
  min (s.levelStartIncrement + lsz) len

/-- Embedding of `repPuzzlesDoneInLevel()`: `(increment - levelStartIncrement) + 1`
computed, as in JavaScript, over the integers. -/
def repPuzzlesDoneInLevel (inc : Nat) (s : RepState) : Int :=
  (inc : Int) - (s.levelStartIncrement : Int) + 1

/-- Embedding of `doLevelRestart()`: under the reentrancy guard it zeroes the
level error counter and rewinds the cursor to the level start.  The guard flag
is set for the 350ms animation window and cleared again by the scheduled
callback before the puzzle at the rewound cursor is reloaded; the embedding
models the state after that callback has run, so `restarting` ends up `false`. -/
def doLevelRestart (w : RepWorld) : RepWorld :=
  if w.rep.restarting then w
  else
    { w with
      rep := { w.rep with levelErrors := 0, restarting := false },
      increment := w.rep.levelStartIncrement }

/-- Embedding of `_repetitionPuzzleComplete()`: record the per-puzzle error
flag into the level error counter, then at the end of the level either advance
to the next level (zero errors) or restart the current level. -/
def repetitionPuzzleComplete (lsz len : Nat) (w : RepWorld) : RepWorld :=
  let s1 : RepState :=
    if w.errorFlag then { w.rep with levelErrors := w.rep.levelErrors + 1 } else w.rep
  let w1 : RepWorld := { w with rep := s1 }
  let done : Int := repPuzzlesDoneInLevel w1.increment s1
  let levelSz : Int := (repLevelEnd lsz len s1 : Int) - (s1.levelStartIncrement : Int)
  if levelSz ≤ done then
    if s1.levelErrors = 0 then
      let nextStart := repLevelEnd lsz len s1
      { w1 with
        rep := { s1 with
          currentLevel := s1.currentLevel + 1,
          levelStartIncrement := nextStart,
          levelErrors := 0 } }
    else
      doLevelRestart w1
  else
    w1

/-- Embedding of `_repetitionShouldContinue()`: at a dirty level end the hook
answers `false` (the restart reloads the rewound puzzle itself), otherwise the
main app keeps loading puzzles while some remain. -/
def repetitionShouldContinue (lsz len : Nat) (w : RepWorld) : Bool :=
  let done : Int := repPuzzlesDoneInLevel w.increment w.rep
  let levelSz : Int := (repLevelEnd lsz len w.rep : Int) - (w.rep.levelStartIncrement : Int)
  if levelSz ≤ done then
    if 0 < w.rep.levelErrors then false
    else decide (w.increment + 1 < len)
  else decide (w.increment + 1 < len)

/-- C1: in level-gated (repetition) mode, when the last puzzle of the block is
completed and at least one error was recorded during the block (either already
counted in `levelErrors` or carried by the error flag of the final puzzle),
the cursor `increment` is rewound to the block start index, the block error
counter is reset to zero, the level counter and block start are unchanged, and
the session does not end. -/
theorem dirty_block_restarts (lsz len : Nat) (w : RepWorld)
    (hguard : w.rep.restarting = false)
    (hlast : (repLevelEnd lsz len w.rep : Int) - (w.rep.levelStartIncrement : Int) ≤
      repPuzzlesDoneInLevel w.increment w.rep)
    (herr : 0 < w.rep.levelErrors ∨ w.errorFlag = true)
    (hrun : w.sessionEnded = false) :
    (repetitionPuzzleComplete lsz len w).increment = w.rep.levelStartIncrement ∧
    (repetitionPuzzleComplete lsz len w).rep.levelErrors = 0 ∧
    (repetitionPuzzleComplete lsz len w).rep.levelStartIncrement = w.rep.levelStartIncrement ∧
    (repetitionPuzzleComplete lsz len w).rep.currentLevel = w.rep.currentLevel ∧
    (repetitionPuzzleComplete lsz len w).sessionEnded = false := by
  unfold repetitionPuzzleComplete doLevelRestart
  unfold repLevelEnd repPuzzlesDoneInLevel at hlast
  cases hef : w.errorFlag
  · have hne : w.rep.levelErrors ≠ 0 := by
      rcases herr with h | h
      · omega
      · rw [hef] at h; exact absurd h (by simp)
    simp only [hef, Bool.false_eq_true, if_false, repLevelEnd, repPuzzlesDoneInLevel]
    rw [if_pos hlast, if_neg hne, if_neg (by rw [hguard]; simp)]
    simp [hguard, hrun]
  · simp only [hef, if_true, repLevelEnd, repPuzzlesDoneInLevel]
    rw [if_pos (by simpa using hlast), if_neg (by omega), if_neg (by rw [hguard]; simp)]
    simp [hguard, hrun]

/-- Witness for `dirty_block_restarts`: level size 2, four puzzles, block
start 0, cursor on puzzle 1 (the last of the block), final puzzle solved with
an error. -/
theorem dirty_block_restarts_witness :
    (repetitionPuzzleComplete 2 4 ⟨⟨1, 0, 0, false⟩, 1, true, false⟩).increment = 0 ∧
    (repetitionPuzzleComplete 2 4 ⟨⟨1, 0, 0, false⟩, 1, true, false⟩).rep.levelErrors = 0 ∧
    (repetitionPuzzleComplete 2 4
      ⟨⟨1, 0, 0, false⟩, 1, true, false⟩).rep.levelStartIncrement = 0 ∧
    (repetitionPuzzleComplete 2 4 ⟨⟨1, 0, 0, false⟩, 1, true, false⟩).rep.currentLevel = 1 ∧
    (repetitionPuzzleComplete 2 4 ⟨⟨1, 0, 0, false⟩, 1, true, false⟩).sessionEnded = false :=
  dirty_block_restarts 2 4 _ rfl (by decide) (Or.inr rfl) rfl

/-- C2: in level-gated (repetition) mode, completing the last puzzle of a
block with zero recorded errors advances the block start index by exactly the
block size `N = repLevelEnd - levelStartIncrement` and increments the level
counter by exactly 1 (and the fresh block starts with zero errors). -/
theorem clean_block_advances (lsz len : Nat) (w : RepWorld)
    (hle : w.rep.levelStartIncrement ≤ len)
    (hlast : (repLevelEnd lsz len w.rep : Int) - (w.rep.levelStartIncrement : Int) ≤
      repPuzzlesDoneInLevel w.increment w.rep)
    (hclean : w.rep.levelErrors = 0)
    (hef : w.errorFlag = false) :
    (repetitionPuzzleComplete lsz len w).rep.levelStartIncrement =
      w.rep.levelStartIncrement + (repLevelEnd lsz len w.rep - w.rep.levelStartIncrement) ∧
    (repetitionPuzzleComplete lsz len w).rep.currentLevel = w.rep.currentLevel + 1 ∧
    (repetitionPuzzleComplete lsz len w).rep.levelErrors = 0 := by
  unfold repetitionPuzzleComplete
  unfold repLevelEnd repPuzzlesDoneInLevel at hlast
  simp only [hef, Bool.false_eq_true, if_false, repLevelEnd, repPuzzlesDoneInLevel]
  rw [if_pos hlast, if_pos hclean]
  refine ⟨?_, rfl, rfl⟩
  simp only []
  omega

/-- Witness for `clean_block_advances`: level size 2, four puzzles, block
start 0, cursor on puzzle 1, no errors anywhere in the block; the block start
advances by the block size 2 and the level counter goes from 1 to 2. -/
theorem clean_block_advances_witness :
    (repetitionPuzzleComplete 2 4
      ⟨⟨1, 0, 0, false⟩, 1, false, false⟩).rep.levelStartIncrement =
      0 + (repLevelEnd 2 4 ⟨1, 0, 0, false⟩ - 0) ∧
    (repetitionPuzzleComplete 2 4 ⟨⟨1, 0, 0, false⟩, 1, false, false⟩).rep.currentLevel = 2 ∧
    (repetitionPuzzleComplete 2 4 ⟨⟨1, 0, 0, false⟩, 1, false, false⟩).rep.levelErrors = 0 :=
  clean_block_advances 2 4 _ (by decide) (by decide) rfl rfl

end Repetition

namespace SM2

/-- Milliseconds per day, as in `const msPerDay = 24 * 60 * 60 * 1000`. -/
def msPerDay : Int := 24 * 60 * 60 * 1000

/-- JavaScript `Math.round`: round half toward positive infinity. -/
def jsRound (x : Rat) : Int := ⌊x + 1 / 2⌋

/-- Embedding of a spaced-repetition card as created by `srGetCard` and
updated by `srApplySM2`.  `interval` is in days (always produced by integer
literals or `Math.round`), `easeFactor` is the fractional SM-2 ease factor,
`nextReview` is a millisecond timestamp. -/
structure SRCard where
  interval : Int
  easeFactor : Rat
  repetitions : Nat
  nextReview : Int
  due : Bool
deriving Repr, DecidableEq

/-- Fresh card made by `srGetCard` on first encounter: interval 1 day, ease
factor 2.5, no clean solves, immediately due. -/
def srInitCard (now : Int) : SRCard :=
  { interval := 1, easeFactor := 5 / 2, repetitions := 0, nextReview := now, due := true }

/-- Embedding of `srApplySM2(card, quality)`: the ease factor is updated
first (floored at 1.3), then a failing quality (< 3) resets the streak and
makes the card overdue by one millisecond, while a passing quality advances
the interval by the SM-2 rule and schedules the next review `interval` days
ahead. -/
def srApplySM2 (now : Int) (card : SRCard) (quality : Nat) : SRCard :=
  let ef : Rat :=
    max (13 / 10)
      (card.easeFactor +
        (1 / 10 - (5 - (quality : Rat)) * (8 / 100 + (5 - (quality : Rat)) * (2 / 100))))
  if quality < 3 then
    { card with
      easeFactor := ef, repetitions := 0, interval := 1, nextReview := now - 1, due := true }
  else
    let newInterval : Int :=
      if card.repetitions = 0 then 1
      else if card.repetitions = 1 then 6
      else jsRound ((card.interval : Rat) * ef)
    { card with
      easeFactor := ef, interval := newInterval, repetitions := card.repetitions + 1,
      nextReview := now + newInterval * msPerDay, due := false }

/-- The persisted card map `srCards`, keyed by puzzle index. -/
def Cards : Type := Nat → Option SRCard

/-- Embedding of `srGetCard`: return the stored card or lazily create the
initial one. -/
def srGetCard (cards : Cards) (idx : Nat) (now : Int) : SRCard :=
  (cards idx).getD (srInitCard now)

/-- Embedding of `srOnPuzzleComplete`: apply the SM-2 update to the card of
the completed puzzle with quality 1 (had an error) or 4 (clean) and store it
back. -/
def srOnPuzzleComplete (cards : Cards) (idx : Nat) (hadError : Bool) (now : Int) : Cards :=
  let card := srGetCard cards idx now
  let quality : Nat := if hadError then 1 else 4
  fun j => if j = idx then some (srApplySM2 now card quality) else cards j

/-- The `nextReview` timestamp of the card at index `i` (0 when absent; only
used on indices that have a card). -/
def srNextReview (cards : Cards) (i : Nat) : Int :=
  match cards i with
  | some c => c.nextReview
  | none => 0

/-- Index `i` has never been attempted: no card exists. -/
def srIsFresh (cards : Cards) (i : Nat) : Bool :=
  (cards i).isNone

/-- Index `i` has a card that is due now (`card.nextReview <= now`). -/
def srIsDue (cards : Cards) (now : Int) (i : Nat) : Bool :=
  match cards i with
  | some c => decide (c.nextReview ≤ now)
  | none => false

/-- Index `i` has a card that is not yet due. -/
def srIsFuture (cards : Cards) (now : Int) (i : Nat) : Bool :=
  match cards i with
  | some c => decide (now < c.nextReview)
  | none => false

/-- Comparator for the due bucket, as in `due.sort((a, b) => b.overdue - a.overdue)`:
`i` may stay before `j` when the overdue amount of `j` does not exceed that
of `i` (most overdue first). -/
def dueRel (cards : Cards) (now : Int) (i j : Nat) : Prop :=
  now - srNextReview cards j ≤ now - srNextReview cards i

instance (cards : Cards) (now : Int) : DecidableRel (dueRel cards now) :=
  fun _ _ => inferInstanceAs (Decidable (_ ≤ _))

instance (cards : Cards) (now : Int) : IsTotal Nat (dueRel cards now) :=
  ⟨fun _ _ => le_total _ _⟩

instance (cards : Cards) (now : Int) : IsTrans Nat (dueRel cards now) :=
  ⟨fun _ _ _ h1 h2 => le_trans h2 h1⟩

/-- Comparator for the future bucket, as in
`future.sort((a, b) => a.nextReview - b.nextReview)`: earliest due first. -/
def futRel (cards : Cards) (i j : Nat) : Prop :=
  srNextReview cards i ≤ srNextReview cards j

instance (cards : Cards) : DecidableRel (futRel cards) :=
  fun _ _ => inferInstanceAs (Decidable (_ ≤ _))

instance (cards : Cards) : IsTotal Nat (futRel cards) :=
  ⟨fun _ _ => le_total _ _⟩

instance (cards : Cards) : IsTrans Nat (futRel cards) :=
  ⟨fun _ _ _ h1 h2 => le_trans h1 h2⟩

/-- Embedding of `srBuildQueue(totalPuzzles)`: partition the indices
`0 .. totalPuzzles - 1` in order into due, fresh and future buckets, then
concatenate due (most overdue first), fresh (original file order) and future
(soonest due first).  The JavaScript `Array.prototype.sort` is stable, which
insertion sort models. -/
def srBuildQueue (cards : Cards) (total : Nat) (now : Int) : List Nat :=
  List.insertionSort (dueRel cards now) ((List.range total).filter (srIsDue cards now)) ++
    (List.range total).filter (srIsFresh cards) ++
      List.insertionSort (futRel cards) ((List.range total).filter (srIsFuture cards now))

/-- Session state relevant to queue cycling: the card map, the global
`PuzzleOrder`, and the cursor `increment`. -/
structure SRSession where
  cards : Cards
  puzzleOrder : List Nat
  increment : Int

/-- Embedding of `srAdvance()`: rebuild `PuzzleOrder` from the current cards
and park the cursor at `-1` (the caller increments before loading). -/
def srAdvance (total : Nat) (now : Int) (s : SRSession) : SRSession :=
  { s with puzzleOrder := srBuildQueue s.cards total now, increment := -1 }

/-- Priority key of a puzzle index for the adaptive ordering: bucket rank
(due 0, fresh 1, future 2) paired with the in-bucket sort key. -/
def srPriority (cards : Cards) (now : Int) (i : Nat) : Int × Int :=
  match cards i with
  | none => (1, (i : Int))
  | some c => if c.nextReview ≤ now then (0, c.nextReview) else (2, c.nextReview)

/-- Lexicographic order on priority keys. -/
def prLe (a b : Int × Int) : Prop :=
  a.1 < b.1 ∨ (a.1 = b.1 ∧ a.2 ≤ b.2)

/-- Effect of `srApplySM2` with the clean-solve quality 4: the quality delta
of the ease factor is zero, so the ease factor is only floored at 1.3, the
interval follows the SM-2 cases, and the streak grows by one. -/
lemma srApplySM2_clean (now : Int) (c : SRCard) :
    (srApplySM2 now c 4).easeFactor = max (13 / 10) c.easeFactor ∧
    (srApplySM2 now c 4).interval =
      (if c.repetitions = 0 then 1
       else if c.repetitions = 1 then 6
       else jsRound ((c.interval : Rat) * max (13 / 10) c.easeFactor)) ∧
    (srApplySM2 now c 4).repetitions = c.repetitions + 1 := by
  simp only [srApplySM2]
  norm_num

/-- Effect of `srApplySM2` with the failing quality 1: ease factor drops by
0.54 (floored at 1.3), the interval resets to one day, the streak resets, and
the card becomes due one millisecond in the past. -/
lemma srApplySM2_fail (now : Int) (c : SRCard) :
    (srApplySM2 now c 1).easeFactor = max (13 / 10) (c.easeFactor - 27 / 50) ∧
    (srApplySM2 now c 1).interval = 1 ∧
    (srApplySM2 now c 1).repetitions = 0 ∧
    (srApplySM2 now c 1).nextReview = now - 1 := by
  simp only [srApplySM2]
  norm_num
  ring_nf

/-- Lower bound for the JavaScript rounding rule. -/
lemma le_jsRound {z : Int} {x : Rat} (h : (z : Rat) ≤ x + 1 / 2) : z ≤ jsRound x :=
  Int.le_floor.mpr h

/-- Card states reachable by the program: a card is created by `srGetCard`
and then evolves only through `srApplySM2` with quality 1 (error) or 4
(clean), as `srOnPuzzleComplete` invokes it. -/
inductive Reachable : SRCard → Prop where
  | init (now : Int) : Reachable (srInitCard now)
  | fail (now : Int) {c : SRCard} : Reachable c → Reachable (srApplySM2 now c 1)
  | clean (now : Int) {c : SRCard} : Reachable c → Reachable (srApplySM2 now c 4)

/-- Invariant of reachable cards: the ease factor never drops below 1.3, the
interval is at least one day, and a streak of two or more clean solves forces
an interval of at least six days (the value assigned at the second clean
solve). -/
theorem reachable_inv {c : SRCard} (h : Reachable c) :
    (13 : Rat) / 10 ≤ c.easeFactor ∧ 1 ≤ c.interval ∧ (2 ≤ c.repetitions → 6 ≤ c.interval) := by
  induction h with
  | init now =>
      refine ⟨by norm_num [srInitCard], by norm_num [srInitCard], ?_⟩
      intro h2; simp [srInitCard] at h2
  | fail now hc ih =>
      rename_i c'
      obtain ⟨h1, h2, h3, _⟩ := srApplySM2_fail now c'
      refine ⟨by rw [h1]; exact le_max_left _ _, by rw [h2], ?_⟩
      intro hr; rw [h3] at hr; omega
  | clean now hc ih =>
      rename_i c'
      obtain ⟨hef, hint, hbig⟩ := ih
      obtain ⟨h1, h2, h3⟩ := srApplySM2_clean now c'
      have hef' : (13 : Rat) / 10 ≤ (srApplySM2 now c' 4).easeFactor := by
        rw [h1]; exact le_max_left _ _
      refine ⟨hef', ?_, ?_⟩
      · rw [h2]
        split
        · norm_num
        · split
          · norm_num
          · rename_i hr0 hr1
            have h6 : 6 ≤ c'.interval := hbig (by omega)
            have hmax : (13 : Rat) / 10 ≤ max (13 / 10) c'.easeFactor := le_max_left _ _
            have hc6 : (6 : Rat) ≤ (c'.interval : Rat) := by exact_mod_cast h6
            have : (1 : Int) ≤ jsRound ((c'.interval : Rat) * max (13 / 10) c'.easeFactor) := by
              apply le_jsRound
              push_cast
              nlinarith
            linarith
      · intro hr
        rw [h2]
        rw [h3] at hr
        split
        · omega
        · split
          · norm_num
          · rename_i hr0 hr1
            have h6 : 6 ≤ c'.interval := hbig (by omega)
            have hmax : (13 : Rat) / 10 ≤ max (13 / 10) c'.easeFactor := le_max_left _ _
            have hc6 : (6 : Rat) ≤ (c'.interval : Rat) := by exact_mod_cast h6
            apply le_jsRound
            push_cast
            nlinarith

/-- C4: for every reachable card with a clean-solve streak of at least 2, a
further clean solve strictly increases the review interval
(`interval <- round(interval * easeFactor)` with the ease factor floored at
1.3 and the interval at least 6 on such cards). -/
theorem clean_interval_increases (now : Int) (c : SRCard)
    (hc : Reachable c) (hreps : 2 ≤ c.repetitions) :
    c.interval < (srApplySM2 now c 4).interval := by
  obtain ⟨hef, hint, hbig⟩ := reachable_inv hc
  obtain ⟨h1, h2, h3⟩ := srApplySM2_clean now c
  have h6 : 6 ≤ c.interval := hbig hreps
  rw [h2, if_neg (by omega), if_neg (by omega)]
  have hmax : (13 : Rat) / 10 ≤ max (13 / 10) c.easeFactor := le_max_left _ _
  have hc6 : (6 : Rat) ≤ (c.interval : Rat) := by exact_mod_cast h6
  have : c.interval + 1 ≤ jsRound ((c.interval : Rat) * max (13 / 10) c.easeFactor) := by
    apply le_jsRound
    push_cast
    nlinarith
  omega

/-- Witness for `clean_interval_increases`: a fresh card solved cleanly twice
has streak 2 and interval 6; the third clean solve raises the interval from 6
to round(6 x 2.5) = 15. -/
theorem clean_interval_increases_witness :
    (srApplySM2 0 (srApplySM2 0 (srInitCard 0) 4) 4).interval <
      (srApplySM2 0 (srApplySM2 0 (srApplySM2 0 (srInitCard 0) 4) 4) 4).interval :=
  clean_interval_increases 0 _
    (Reachable.clean 0 (Reachable.clean 0 (Reachable.init 0))) (by decide)

/-- A due index has bucket rank 0 and its in-bucket key is its next-review
timestamp. -/
lemma srPriority_due {cards : Cards} {now : Int} {i : Nat} (h : srIsDue cards now i = true) :
    srPriority cards now i = (0, srNextReview cards i) := by
  unfold srIsDue at h
  unfold srPriority srNextReview
  cases hc : cards i with
  | none => rw [hc] at h; simp at h
  | some c =>
      rw [hc] at h
      simp only [decide_eq_true_eq] at h
      simp [h]

/-- A fresh index has bucket rank 1 and its in-bucket key is its own file
position. -/
lemma srPriority_fresh {cards : Cards} {now : Int} {i : Nat} (h : srIsFresh cards i = true) :
    srPriority cards now i = (1, (i : Int)) := by
  unfold srIsFresh at h
  unfold srPriority
  cases hc : cards i with
  | none => rfl
  | some c => rw [hc] at h; simp at h

/-- A not-yet-due index has bucket rank 2 and its in-bucket key is its
next-review timestamp. -/
lemma srPriority_future {cards : Cards} {now : Int} {i : Nat}
    (h : srIsFuture cards now i = true) :
    srPriority cards now i = (2, srNextReview cards i) := by
  unfold srIsFuture at h
  unfold srPriority srNextReview
  cases hc : cards i with
  | none => rw [hc] at h; simp at h
  | some c =>
      rw [hc] at h
      simp only [decide_eq_true_eq] at h
      simp [h, not_le_of_lt h]

/-- C5: the rebuilt queue is sorted by the adaptive priority: all overdue
puzzles first, most overdue (smallest next-due timestamp) first; then all
never-seen puzzles in their original file order; then all not-yet-due puzzles
with earliest next-due timestamp first. -/
theorem srBuildQueue_sorted (cards : Cards) (total : Nat) (now : Int) :
    List.Pairwise (fun i j => prLe (srPriority cards now i) (srPriority cards now j))
      (srBuildQueue cards total now) := by
  unfold srBuildQueue
  rw [List.pairwise_append, List.pairwise_append]
  refine ⟨⟨?_, ?_, ?_⟩, ?_, ?_⟩
  · refine (List.sorted_insertionSort (dueRel cards now) _).imp_of_mem ?_
    intro a b ha hb hab
    have ha2 := (List.mem_filter.mp ((List.mem_insertionSort _).mp ha)).2
    have hb2 := (List.mem_filter.mp ((List.mem_insertionSort _).mp hb)).2
    rw [srPriority_due ha2, srPriority_due hb2]
    unfold dueRel at hab
    exact Or.inr ⟨rfl, by omega⟩
  · refine ((List.pairwise_lt_range total).filter _).imp_of_mem ?_
    intro a b ha hb hab
    have ha2 := (List.mem_filter.mp ha).2
    have hb2 := (List.mem_filter.mp hb).2
    rw [srPriority_fresh ha2, srPriority_fresh hb2]
    refine Or.inr ⟨rfl, ?_⟩
    show ((a : Int)) ≤ ((b : Int))
    exact_mod_cast Nat.le_of_lt hab
  · intro a ha b hb
    have ha2 := (List.mem_filter.mp ((List.mem_insertionSort _).mp ha)).2
    have hb2 := (List.mem_filter.mp hb).2
    rw [srPriority_due ha2, srPriority_fresh hb2]
    exact Or.inl (by norm_num)
  · refine (List.sorted_insertionSort (futRel cards) _).imp_of_mem ?_
    intro a b ha hb hab
    have ha2 := (List.mem_filter.mp ((List.mem_insertionSort _).mp ha)).2
    have hb2 := (List.mem_filter.mp ((List.mem_insertionSort _).mp hb)).2
    rw [srPriority_future ha2, srPriority_future hb2]
    unfold futRel at hab
    exact Or.inr ⟨rfl, hab⟩
  · intro a ha b hb
    have hb2 := (List.mem_filter.mp ((List.mem_insertionSort _).mp hb)).2
    rw [srPriority_future hb2]
    rcases List.mem_append.mp ha with ha | ha
    · have ha2 := (List.mem_filter.mp ((List.mem_insertionSort _).mp ha)).2
      rw [srPriority_due ha2]
      exact Or.inl (by norm_num)
    · have ha2 := (List.mem_filter.mp ha).2
      rw [srPriority_fresh ha2]
      exact Or.inl (by norm_num)

/-- Selecting the never-seen indices can equivalently be done after first
discarding the due ones, because a never-seen index is never due. -/
lemma fresh_split (cards : Cards) (now : Int) (l : List Nat) :
    l.filter (srIsFresh cards) =
      (l.filter (fun i => !srIsDue cards now i)).filter (srIsFresh cards) := by
  rw [List.filter_filter]
  refine (List.filter_congr ?_).symm
  intro a _
  unfold srIsFresh srIsDue
  cases cards a <;> simp

/-- Among the non-due indices, the not-yet-due ones are exactly the non-fresh
ones. -/
lemma future_split (cards : Cards) (now : Int) (l : List Nat) :
    l.filter (srIsFuture cards now) =
      (l.filter (fun i => !srIsDue cards now i)).filter (fun i => !srIsFresh cards i) := by
  rw [List.filter_filter]
  refine (List.filter_congr ?_).symm
  intro a _
  unfold srIsFresh srIsDue srIsFuture
  cases cards a with
  | none => simp
  | some c =>
      simp only [Option.isNone_some, Bool.not_false, Bool.true_and, Bool.and_true,
        ← decide_not, decide_eq_decide]
      exact not_le

/-- C10: the rebuilt queue is a permutation of the puzzle indices
`0 .. totalPuzzles - 1`: every puzzle appears exactly once, with no
repetition or omission. -/
theorem srBuildQueue_perm (cards : Cards) (total : Nat) (now : Int) :
    (srBuildQueue cards total now).Perm (List.range total) := by
  unfold srBuildQueue
  have hdue := List.perm_insertionSort (dueRel cards now)
    ((List.range total).filter (srIsDue cards now))
  have hfut := List.perm_insertionSort (futRel cards)
    ((List.range total).filter (srIsFuture cards now))
  refine ((hdue.append (List.Perm.refl _)).append hfut).trans ?_
  rw [List.append_assoc]
  rw [fresh_split cards now, future_split cards now]
  refine (List.Perm.append_left _ (List.filter_append_perm _ _)).trans ?_
  exact List.filter_append_perm _ _

/-- C3: completing a puzzle with at least one error stores a card whose
next-due timestamp is now or earlier (`Date.now() - 1`), and therefore any
later rebuild of the queue places that puzzle in the leading overdue segment:
the queue splits as `A ++ B` with the puzzle in `A`, every element of `A`
due, and every non-due puzzle (never seen or not yet due) in `B`. -/
theorem failed_puzzle_sorts_to_front (cards : Cards) (idx total : Nat) (now now2 : Int)
    (hidx : idx < total) (hnow : now ≤ now2) :
    (∃ c, srOnPuzzleComplete cards idx true now idx = some c ∧ c.nextReview ≤ now) ∧
    ∃ A B, srBuildQueue (srOnPuzzleComplete cards idx true now) total now2 = A ++ B ∧
      idx ∈ A ∧
      (∀ j ∈ A, srIsDue (srOnPuzzleComplete cards idx true now) now2 j = true) ∧
      ∀ j, j < total → srIsDue (srOnPuzzleComplete cards idx true now) now2 j = false →
        j ∈ B := by
  have hcard : srOnPuzzleComplete cards idx true now idx =
      some (srApplySM2 now (srGetCard cards idx now) 1) := by
    unfold srOnPuzzleComplete
    simp
  have hnr : (srApplySM2 now (srGetCard cards idx now) 1).nextReview = now - 1 :=
    (srApplySM2_fail now (srGetCard cards idx now)).2.2.2
  refine ⟨⟨_, hcard, by omega⟩, ?_⟩
  refine ⟨List.insertionSort (dueRel (srOnPuzzleComplete cards idx true now) now2)
      ((List.range total).filter (srIsDue (srOnPuzzleComplete cards idx true now) now2)),
    (List.range total).filter (srIsFresh (srOnPuzzleComplete cards idx true now)) ++
      List.insertionSort (futRel (srOnPuzzleComplete cards idx true now))
        ((List.range total).filter (srIsFuture (srOnPuzzleComplete cards idx true now) now2)),
    ?_, ?_, ?_, ?_⟩
  · unfold srBuildQueue
    rw [List.append_assoc]
  · refine (List.mem_insertionSort _).mpr (List.mem_filter.mpr ⟨List.mem_range.mpr hidx, ?_⟩)
    unfold srIsDue
    rw [hcard]
    simp only [decide_eq_true_eq]
    omega
  · intro j hj
    exact (List.mem_filter.mp ((List.mem_insertionSort _).mp hj)).2
  · intro j hj hnd
    unfold srIsDue at hnd
    rcases hc : srOnPuzzleComplete cards idx true now j with _ | c
    · refine List.mem_append.mpr (Or.inl (List.mem_filter.mpr ⟨List.mem_range.mpr hj, ?_⟩))
      unfold srIsFresh
      rw [hc]
      rfl
    · refine List.mem_append.mpr (Or.inr ((List.mem_insertionSort _).mpr
        (List.mem_filter.mpr ⟨List.mem_range.mpr hj, ?_⟩)))
      unfold srIsFuture
      rw [hc]
      rw [hc] at hnd
      simp only [decide_eq_false_iff_not, decide_eq_true_eq] at hnd ⊢
      omega

/-- Witness for `failed_puzzle_sorts_to_front`: two puzzles, no cards yet,
puzzle 0 completed with an error at time 0; the rebuild at time 0 yields the
split `[0] ++ [1]` with puzzle 0 due and puzzle 1 fresh. -/
theorem failed_puzzle_sorts_to_front_witness :
    (∃ c, srOnPuzzleComplete (fun _ => none) 0 true 0 0 = some c ∧ c.nextReview ≤ 0) ∧
    ∃ A B, srBuildQueue (srOnPuzzleComplete (fun _ => none) 0 true 0) 2 0 = A ++ B ∧
      0 ∈ A ∧
      (∀ j ∈ A, srIsDue (srOnPuzzleComplete (fun _ => none) 0 true 0) 0 j = true) ∧
      ∀ j, j < 2 → srIsDue (srOnPuzzleComplete (fun _ => none) 0 true 0) 0 j = false →
        j ∈ B :=
  failed_puzzle_sorts_to_front (fun _ => none) 0 2 0 0 (by decide) (by decide)

/-- C6: rebuilding the queue twice in succession at the same time with no
puzzle completion in between yields identical orderings, because `srAdvance`
rebuilds purely from the unchanged card map. -/
theorem srAdvance_idempotent_order (total : Nat) (now : Int) (s : SRSession) :
    (srAdvance total now (srAdvance total now s)).puzzleOrder =
      (srAdvance total now s).puzzleOrder :=
  rfl

end SM2

namespace Haste

/-- The `comboThresholds` table of Haste mode: at streak 2 gain 3 seconds, at
5 gain 5, at 10 gain 8, at 20 gain 12, at 30 gain 15. -/
def comboThresholds : List (Nat × Int) := [(2, 3), (5, 5), (10, 8), (20, 12), (30, 15)]

/-- Time lost on an incorrect move (`timeLoss`). -/
def hasteTimeLoss : Int := 30

/-- Mode runtime state relevant to the combo economy. -/
structure HasteState where
  comboCount : Nat
  timeRemaining : Int
  totalSolved : Nat
deriving Repr, DecidableEq

/-- Starting state of a Haste session (`baseTime` 180 seconds). -/
def hasteInit : HasteState := { comboCount := 0, timeRemaining := 180, totalSolved := 0 }

/-- Embedding of `handlePuzzleComplete()` in Haste mode: increment the solved
count and the streak, then scan the threshold table for an entry matching the
new streak exactly and, at the first match, add its gain to the clock.
Returns the new state together with the bonus granted (if any). -/
def hastePuzzleComplete (s : HasteState) : HasteState × Option Int :=
  let cc := s.comboCount + 1
  match comboThresholds.find? (fun t => cc == t.1) with
  | some t =>
      ({ comboCount := cc, timeRemaining := s.timeRemaining + t.2,
         totalSolved := s.totalSolved + 1 }, some t.2)
  | none =>
      ({ s with comboCount := cc, totalSolved := s.totalSolved + 1 }, none)

/-- Embedding of `handleIncorrectMove()` in Haste mode: the streak resets to
zero and the clock loses `timeLoss` seconds (clamped at zero). -/
def hasteIncorrectMove (s : HasteState) : HasteState :=
  { s with comboCount := 0, timeRemaining := max 0 (s.timeRemaining - hasteTimeLoss) }

/-- Puzzle-level events of a Haste session. -/
inductive HEvent where
  | complete
  | wrong
deriving Repr, DecidableEq

/-- One event step of a Haste session. -/
def hasteStep (s : HasteState) : HEvent → HasteState
  | HEvent.complete => (hastePuzzleComplete s).1
  | HEvent.wrong => hasteIncorrectMove s

/-- The bonus granted by one event (always none for an incorrect move). -/
def hasteBonusOn (s : HasteState) : HEvent → Option Int
  | HEvent.complete => (hastePuzzleComplete s).2
  | HEvent.wrong => none

/-- Number of times the +5 second bonus is granted along an event sequence. -/
def hasteBonus5Count (s : HasteState) : List HEvent → Nat
  | [] => 0
  | e :: es =>
      (if hasteBonusOn s e = some 5 then 1 else 0) + hasteBonus5Count (hasteStep s e) es

/-- C7 counterexample: five clean solves, one incorrect move (streak reset),
then five more clean solves.  The +5 bonus is granted twice — once at each
time the streak reaches exactly 5 — so it does reapply after a reset,
contrary to the claim. -/
theorem haste_bonus5_reapplies_after_reset :
    hasteBonus5Count hasteInit
      [HEvent.complete, HEvent.complete, HEvent.complete, HEvent.complete, HEvent.complete,
       HEvent.wrong,
       HEvent.complete, HEvent.complete, HEvent.complete, HEvent.complete, HEvent.complete] = 2 ∧
    1 < hasteBonus5Count hasteInit
      [HEvent.complete, HEvent.complete, HEvent.complete, HEvent.complete, HEvent.complete,
       HEvent.wrong,
       HEvent.complete, HEvent.complete, HEvent.complete, HEvent.complete, HEvent.complete] := by
  exact ⟨by decide, by decide⟩

/-- C7 amended: the +5 bonus is granted at a puzzle completion exactly when
the streak counter reaches exactly 5 with that completion — hence once per
crossing (never again at 6 through 9), but it is granted anew each time the
streak climbs back to 5 after a reset. -/
theorem haste_bonus5_iff_streak_reaches_five (s : HasteState) :
    hasteBonusOn s HEvent.complete = some 5 ↔ s.comboCount + 1 = 5 := by
  unfold hasteBonusOn hastePuzzleComplete comboThresholds
  simp only [List.find?]
  cases h2 : (s.comboCount + 1 == 2) <;> cases h5 : (s.comboCount + 1 == 5) <;>
    cases h10 : (s.comboCount + 1 == 10) <;> cases h20 : (s.comboCount + 1 == 20) <;>
      cases h30 : (s.comboCount + 1 == 30) <;>
        simp only [h2, h5, h10, h20, h30] <;> simp_all [beq_iff_eq]

end Haste

namespace Trainer

/-- State of the main trainer loop: the move history of the arbiter game
object (moves abstracted as numbers), the scored error counter, the
per-puzzle `error` flag, and the puzzle-complete flag. -/
structure GameState where
  history : List Nat
  errorcount : Nat
  errorFlag : Bool
  puzzlecomplete : Bool
deriving Repr, DecidableEq

/-- Embedding of `makeMove(gameObj, move)`: the external arbiter applies a
legal move (appending it to the history) and rejects an illegal one with a
snapback (`none`).  Legality is an arbitrary predicate of the position,
i.e., of the history so far. -/
def makeMove (legal : List Nat → Nat → Bool) (h : List Nat) (m : Nat) : Option (List Nat) :=
  if legal h m then some (h ++ [m]) else none

/-- Embedding of `checkAndPlayNext()`: compare the latest played move with
the solution move at the same position (`moveHistory`); on a match play the
opponent reply (unless playing both sides) and complete the puzzle when the
whole line is played; on a mismatch count a scored error, set the `error`
flag, and unwind the move via undo. -/
def checkAndPlayNext (moveHistory : List Nat) (playbothsides : Bool)
    (s : GameState) : GameState :=
  if s.history[s.history.length - 1]? = moveHistory[s.history.length - 1]? then
    let s1 : GameState :=
      if !playbothsides then
        match moveHistory[s.history.length]? with
        | some m => { s with history := s.history ++ [m] }
        | none => s
      else s
    if s1.history.length = moveHistory.length then { s1 with puzzlecomplete := true } else s1
  else
    { s with
      errorcount := s.errorcount + 1, errorFlag := true, history := s.history.dropLast }

/-- Embedding of `dropPiece(source, target)` followed by the scheduled
`checkAndPlayNext()`: an illegal move snaps back with no state change,
otherwise the move is applied and checked. -/
def dropPiece (legal : List Nat → Nat → Bool) (moveHistory : List Nat)
    (playbothsides : Bool) (s : GameState) (m : Nat) : GameState :=
  match makeMove legal s.history m with
  | none => s
  | some h2 => checkAndPlayNext moveHistory playbothsides { s with history := h2 }

/-- C8: a legal move that differs from the expected solution move increments
the scored error count by one, sets the error flag, and is unwound via undo,
leaving the game state (in particular the move history, hence the board)
exactly as before the attempt. -/
theorem wrong_move_counted_and_unwound (legal : List Nat → Nat → Bool)
    (moveHistory : List Nat) (playbothsides : Bool) (s : GameState) (m : Nat)
    (hlegal : legal s.history m = true)
    (hwrong : moveHistory[s.history.length]? ≠ some m) :
    dropPiece legal moveHistory playbothsides s m =
      { s with errorcount := s.errorcount + 1, errorFlag := true } := by
  have hmk : makeMove legal s.history m = some (s.history ++ [m]) := by
    unfold makeMove
    rw [if_pos hlegal]
  unfold dropPiece
  rw [hmk]
  show checkAndPlayNext moveHistory playbothsides { s with history := s.history ++ [m] } = _
  unfold checkAndPlayNext
  have hlen : (s.history ++ [m]).length - 1 = s.history.length := by simp
  have hget : (s.history ++ [m])[s.history.length]? = some m := by
    rw [List.getElem?_append_right (le_refl _)]
    simp
  rw [if_neg]
  · simp [List.dropLast_concat]
  · show ¬((s.history ++ [m])[(s.history ++ [m]).length - 1]? =
      moveHistory[(s.history ++ [m]).length - 1]?)
    rw [hlen, hget]
    exact fun h => hwrong h.symm

/-- Witness for `wrong_move_counted_and_unwound`: empty history, solution
line `[0, 1]`, every move legal, wrong move 5 attempted; the state gains one
error and is otherwise unchanged. -/
theorem wrong_move_counted_and_unwound_witness :
    dropPiece (fun _ _ => true) [0, 1] false ⟨[], 0, false, false⟩ 5 =
      ⟨[], 1, true, false⟩ :=
  wrong_move_counted_and_unwound (fun _ _ => true) [0, 1] false
    ⟨[], 0, false, false⟩ 5 rfl (by decide)

/-- Session-level state around `startTest()` and `nextPuzzle()`. -/
structure SessionState where
  puzzlesetLen : Nat
  increment : Nat
  setcomplete : Bool
  pauseflag : Bool
  modeActive : Bool
deriving Repr, DecidableEq

/-- Embedding of `startTest()`: refuse to start when the puzzle set is empty
(the guard returns before any flag is touched), otherwise clear the
set-complete and pause flags and start the mode timer (which activates the
mode when the mode has a timer). -/
def startTest (hasTimer : Bool) (s : SessionState) : SessionState :=
  if s.puzzlesetLen = 0 then s
  else
    { s with
      setcomplete := false, pauseflag := false,
      modeActive := if hasTimer then true else s.modeActive }

/-- Embedding of `nextPuzzle()`: advance the cursor while puzzles remain,
otherwise mark the set complete and show results. -/
def nextPuzzle (s : SessionState) : SessionState :=
  if s.increment < s.puzzlesetLen - 1 then { s with increment := s.increment + 1 }
  else { s with setcomplete := true }

/-- C9: with an empty puzzle source, `startTest` returns with the session
state untouched (in particular the mode is not activated), and the scheduler
never advances the cursor. -/
theorem empty_source_refuses_start (hasTimer : Bool) (s : SessionState)
    (hempty : s.puzzlesetLen = 0) :
    startTest hasTimer s = s ∧ (nextPuzzle s).increment = s.increment := by
  constructor
  · unfold startTest
    rw [if_pos hempty]
  · unfold nextPuzzle
    rw [if_neg (by omega)]

/-- Witness for `empty_source_refuses_start`: the idle session over an empty
puzzle set is left exactly as it is. -/
theorem empty_source_refuses_start_witness :
    startTest true ⟨0, 0, false, false, false⟩ = ⟨0, 0, false, false, false⟩ ∧
    (nextPuzzle ⟨0, 0, false, false, false⟩).increment = 0 :=
  empty_source_refuses_start true ⟨0, 0, false, false, false⟩ rfl

end Trainer
